import Mathlib

/-
Verification of the malicious-secure shuffle subsystem
(`ipa-core/src/protocol/ipa_prf/shuffle/malicious.rs`) against its
natural-language specification.

The Rust code is shallowly embedded in Lean.  Pure helper functions
(`split_row_and_tag`, `concatenate_row_and_tag`, `truncate_tags`,
`compute_and_hash_tags`) become pure Lean functions over a byte-level
model of fixed-width boolean arrays.  The asynchronous protocol
functions (`malicious_shuffle`, `malicious_sharded_shuffle`,
`setup_keys`, `verify_shuffle`, `h1_verify`, `h2_verify`, `h3_verify`,
`reveal_keys`, `compute_and_add_tags`) become functions from an
environment (holding the values produced by the external collaborators:
PRSS, secure multiplication, reveal, the semi-honest shuffle, and the
values delivered on each receive channel) to an outcome paired with the
list of network events the party performs, in program order.  Panics
(assertion failures and unwraps) are a distinct outcome constructor,
separate from recoverable errors.
-/

/-- Modelled from the spec: the field `Gf32Bit` (a 32-bit Galois field,
`ff::Gf32Bit`) is not under `src/`.  The spec describes it as a 32-bit
field whose elements are the 32-bit columns of a row.  We model an
element as a natural number below `2 ^ 32`; addition is bitwise xor
(characteristic 2) and multiplication is carry-less multiplication
reduced by a degree-32 irreducible polynomial. -/
abbrev Gf32Bit := Nat

/-- Carry-less (polynomial) multiplication of two 32-bit values. -/
def clMul (a b : Nat) : Nat :=
  (List.range 32).foldl (fun acc i => if a.testBit i then acc ^^^ (b <<< i) else acc) 0

/-- Reduction of a polynomial of degree below 63 modulo the irreducible
polynomial represented by `0x10000008D`. -/
def gfReduce (x : Nat) : Nat :=
  (List.range 31).foldl
    (fun acc k =>
      let i := 62 - k
      if acc.testBit i then acc ^^^ (0x10000008D <<< (i - 32)) else acc)
    x

/-- Addition in `Gf32Bit`: bitwise xor. -/
def gfAdd (a b : Gf32Bit) : Gf32Bit := (a ^^^ b) % 2 ^ 32

/-- Multiplication in `Gf32Bit`. -/
def gfMul (a b : Gf32Bit) : Gf32Bit := gfReduce (clMul (a % 2 ^ 32) (b % 2 ^ 32)) % 2 ^ 32

/-- `Gf32Bit::ZERO`. -/
def gfZero : Gf32Bit := 0

/-- `Gf32Bit::ONE`. -/
def gfOne : Gf32Bit := 1

/-- Modelled from the spec: the `Serializable` byte codec for fixed-width
boolean arrays is not under `src/`.  The spec describes rows as
fixed-width bit-strings serialized into byte buffers in the system's
little-endian convention.  `natToBytesLE n len` is the `len`-byte
little-endian serialization of the value `n`. -/
def natToBytesLE : Nat → Nat → List Nat
  | _, 0 => []
  | n, len + 1 => n % 256 :: natToBytesLE (n / 256) len

/-- Modelled from the spec: little-endian byte deserialization, the
inverse direction of `natToBytesLE`. -/
def bytesToNatLE : List Nat → Nat
  | [] => 0
  | b :: bs => b + 256 * bytesToNatLE bs

/-- Modelled from the spec: `BooleanArray` deserialization of a value of
bit width `w` from its byte buffer fails exactly when the padding bits
beyond the declared width are set, i.e. when the read value is not
below `2 ^ w`. -/
def deserializeBA (w : Nat) (bs : List Nat) : Option Nat :=
  let v := bytesToNatLE bs
  if v < 2 ^ w then some v else none

/-- Number of bytes in the serialization of a `w`-bit boolean array. -/
def byteWidth (w : Nat) : Nat := (w + 7) / 8

/-- Embedding of `split_row_and_tag` (malicious.rs).  The row-with-tag
value (of bit width `bBits`) is serialized into its byte buffer; the
first `ceil(sBits/8)` bytes are deserialized as the row and the
remaining bytes as the `Gf32Bit` tag; a failed deserialization is
replaced by the default (zero) value. -/
def split_row_and_tag (sBits bBits : Nat) (row_with_tag : Nat) : Nat × Gf32Bit :=
  let tag_offset := byteWidth sBits
  let buf := natToBytesLE row_with_tag (byteWidth bBits)
  ((deserializeBA sBits (buf.take tag_offset)).getD 0,
   (deserializeBA 32 (buf.drop tag_offset)).getD 0)

/-- A replicated additive share: the pair of the left and right share. -/
abbrev AddShare := Nat × Nat

/-- Embedding of `concatenate_row_and_tag` (malicious.rs).  Each share of
the row is serialized, the corresponding share of the tag is appended,
and the result is deserialized at width `bBits`.  `none` models the
panic of the Rust code (`GenericArray` length mismatch or a failed
`B::deserialize(..).unwrap()`). -/
def concatenate_row_and_tag (sBits bBits : Nat) (row : AddShare) (tag : AddShare) :
    Option AddShare :=
  if byteWidth sBits + 4 ≠ byteWidth bBits then none
  else
    match deserializeBA bBits (natToBytesLE row.1 (byteWidth sBits) ++ natToBytesLE tag.1 4),
          deserializeBA bBits (natToBytesLE row.2 (byteWidth sBits) ++ natToBytesLE tag.2 4) with
    | some l, some r => some (l, r)
    | _, _ => none

/-- Embedding of `truncate_tags` (malicious.rs): drop the tag of each
share of every row, keeping the row part returned by
`split_row_and_tag`. -/
def truncate_tags (sBits bBits : Nat) (shares_and_tags : List AddShare) : List AddShare :=
  shares_and_tags.map (fun row_with_tag =>
    ((split_row_and_tag sBits bBits row_with_tag.1).1,
     (split_row_and_tag sBits bBits row_with_tag.2).1))

theorem natToBytesLE_length (n len : Nat) : (natToBytesLE n len).length = len := by
  induction len generalizing n with
  | zero => rfl
  | succ l ih => simp [natToBytesLE, ih]

theorem bytesToNatLE_natToBytesLE (len n : Nat) :
    bytesToNatLE (natToBytesLE n len) = n % 256 ^ len := by
  induction len generalizing n with
  | zero => simp [natToBytesLE, bytesToNatLE, Nat.mod_one]
  | succ l ih =>
      rw [natToBytesLE, bytesToNatLE, ih, Nat.pow_succ, Nat.mul_comm (256 ^ l) 256,
        Nat.mod_mul]

theorem natToBytesLE_take (len k n : Nat) (h : k ≤ len) :
    (natToBytesLE n len).take k = natToBytesLE n k := by
  induction len generalizing k n with
  | zero =>
      have hk : k = 0 := Nat.le_zero.mp h
      subst hk; rfl
  | succ l ih =>
      cases k with
      | zero => rfl
      | succ k' =>
          rw [natToBytesLE, natToBytesLE, List.take_succ_cons,
            ih _ _ (Nat.le_of_succ_le_succ h)]

theorem natToBytesLE_drop (k len n : Nat) :
    (natToBytesLE n len).drop k = natToBytesLE (n / 256 ^ k) (len - k) := by
  induction k generalizing len n with
  | zero => simp [natToBytesLE]
  | succ k' ih =>
      cases len with
      | zero => simp [natToBytesLE]
      | succ l =>
          rw [natToBytesLE, List.drop_succ_cons, ih, Nat.succ_sub_succ,
            Nat.div_div_eq_div_mul, ← Nat.pow_succ']

theorem bytesToNatLE_append (xs ys : List Nat) :
    bytesToNatLE (xs ++ ys) = bytesToNatLE xs + 256 ^ xs.length * bytesToNatLE ys := by
  induction xs with
  | nil => simp [bytesToNatLE]
  | cons b bs ih =>
      simp only [List.cons_append, bytesToNatLE, List.append_eq, ih, List.length_cons]
      ring

theorem pow256_eq_pow2 (k : Nat) : (256 : Nat) ^ k = 2 ^ (8 * k) := by
  rw [show (256 : Nat) = 2 ^ 8 by norm_num, ← Nat.pow_mul]

theorem two_pow_le_pow256_byteWidth (w : Nat) : 2 ^ w ≤ 256 ^ byteWidth w := by
  rw [pow256_eq_pow2]
  exact Nat.pow_le_pow_right (by norm_num) (by unfold byteWidth; omega)

/-- The three helper roles (helpers::Role). -/
inductive Role : Type
  | H1
  | H2
  | H3
deriving DecidableEq

/-- Embedding of `IntermediateShuffleMessages<B>`: the role-dependent
bundle of values each helper observed during the semi-honest shuffle. -/
inductive Messages : Type
  | H1 (x1 : List Nat)
  | H2 (x2 : List Nat)
  | H3 (y1 y2 : List Nat)
deriving DecidableEq

/-- The role carried by an `IntermediateShuffleMessages` variant. -/
def Messages.role : Messages → Role
  | .H1 _ => .H1
  | .H2 _ => .H2
  | .H3 _ _ => .H3

/-- Modelled from the spec: `compute_possibly_empty_hash` from
`helpers::hashing` is not under `src/`.  The spec describes a hash as an
equality-comparable digest over a concatenated sequence of field
elements, with a defined digest for the empty sequence.  We model the
digest as the sequence itself. -/
abbrev Hash := List Gf32Bit

/-- Modelled from the spec: the digest of a (possibly empty) sequence of
field elements. -/
def compute_possibly_empty_hash (elems : List Gf32Bit) : Hash := elems

/-- Modelled from the spec: conversion of a `sBits`-wide boolean array to
its `ceil(sBits/32)` little-endian 32-bit field-element chunks
(`TryInto<Vec<Gf32Bit>>`, not under `src/`). -/
def toGf32Chunks (sBits : Nat) (v : Nat) : List Gf32Bit :=
  (List.range ((sBits + 31) / 32)).map (fun i => v / 2 ^ (32 * i) % 2 ^ 32)

/-- Embedding of `compute_and_hash_tags` (malicious.rs): for each row,
split off the tag, multiply every 32-bit entry (tag included) by the
matching revealed key, sum, and hash the per-row sequence. -/
def compute_and_hash_tags (sBits bBits : Nat) (keys : List Gf32Bit) (rows : List Nat) :
    Hash :=
  compute_possibly_empty_hash (rows.map (fun row_with_tag =>
    let rt := split_row_and_tag sBits bBits row_with_tag
    ((toGf32Chunks sBits rt.1 ++ [rt.2]).zip keys).foldl
      (fun acc ek => gfAdd acc (gfMul ek.1 ek.2)) gfZero))

/-- Channel / step labels used for total-record declarations and
send/receive events. -/
inductive ChannelLabel : Type
  | generateTags
  | setupKeys
  | revealMACKey
  | hashesH3toH1
  | hashH2toH1
  | hashH3toH2
deriving DecidableEq

/-- A network event performed by the party being modelled, in program
order: a secure-multiplication round, a reveal round, a total-record
declaration to the channel layer, or a channel send / receive keyed by
record id. -/
inductive NetEvent : Type
  | mul (recordId : Nat)
  | reveal (recordId : Nat)
  | declare (channel : ChannelLabel) (totalRecords : Nat)
  | sendHash (channel : ChannelLabel) (recordId : Nat) (value : Hash)
  | recvHash (channel : ChannelLabel) (recordId : Nat)
  | sendKeyShare (destShard : Nat) (recordId : Nat) (value : AddShare)
  | recvKeyShare (sourceShard : Nat) (recordId : Nat)
deriving DecidableEq

/-- The domain-specific errors of this core.  `shuffleValidationFailed`
is `Error::ShuffleValidationFailed`; `channelClosed` models the
transport error surfaced when a receive channel closes early. -/
inductive ShuffleError : Type
  | shuffleValidationFailed (msg : String)
  | channelClosed
deriving DecidableEq

/-- How one call terminates: normally, with a recoverable error value,
or abnormally (a Rust panic, from an assertion or an unwrap). -/
inductive Outcome (α : Type) : Type
  | ok (a : α)
  | err (e : ShuffleError)
  | panic (msg : String)
deriving DecidableEq

/-- A computation result paired with the network events it performed. -/
abbrev OutW (α : Type) := Outcome α × List NetEvent

/-- Sequencing of traced computations: on a recoverable error or a
panic, the continuation does not run. -/
def bindW {α β : Type} (x : OutW α) (f : α → OutW β) : OutW β :=
  match x.1 with
  | .ok a => ((f a).1, x.2 ++ (f a).2)
  | .err e => (.err e, x.2)
  | .panic m => (.panic m, x.2)

/-- Prefix a trace with events performed earlier. -/
def prependEvents {α : Type} (es : List NetEvent) (x : OutW α) : OutW α :=
  (x.1, es ++ x.2)

/-- The environment: the values produced by the external collaborators
(PRSS shared randomness, secure multiplication, malicious reveal, the
semi-honest shuffle) and the values delivered on each receive channel,
plus the party's role and shard coordinates.  These are the consumed
interfaces the spec lists in its external-interface section; their
implementations are out of scope. -/
structure Env : Type where
  role : Role
  prss : Nat → AddShare
  mulResult : Nat → AddShare
  revealResult : Nat → Gf32Bit
  recvH3toH1 : Nat → Hash
  recvH2toH1 : Nat → Hash
  recvH3toH2 : Nat → Hash
  shuffleOut : List AddShare × Messages
  shuffleEvents : List NetEvent
  shardId : Nat
  shardCount : Nat
  shardKeyStream : List AddShare

/-- Printable form of a hash, used inside error messages. -/
def hashRepr (h : Hash) : String :=
  String.intercalate (" ") (h.map Nat.repr)

/-- Embedding of `h1_verify` (malicious.rs).  H1 computes the hash of
x1 and of the xor of its two shares of each shuffled row, receives the
hashes of y1 and c from H3 (record ids 0 and 1 on one channel) and the
hash of c from H2 (a separate one-record channel), and compares:
first x1 against y1, then a-xor-b against the two received c hashes. -/
def h1_verify (env : Env) (sBits bBits : Nat) (keys : List Gf32Bit)
    (share_a_and_b : List AddShare) (x1 : List Nat) : OutW Unit :=
  let hash_x1 := compute_and_hash_tags sBits bBits keys x1
  let hash_a_xor_b :=
    compute_and_hash_tags sBits bBits keys (share_a_and_b.map (fun s => s.1 ^^^ s.2))
  let hash_y1 := env.recvH3toH1 0
  let hash_h3 := env.recvH3toH1 1
  let hash_h2 := env.recvH2toH1 0
  let events : List NetEvent :=
    [.declare .hashesH3toH1 2, .declare .hashH2toH1 1,
     .recvHash .hashesH3toH1 0, .recvHash .hashesH3toH1 1, .recvHash .hashH2toH1 0]
  if hash_x1 ≠ hash_y1 then
    (.err (.shuffleValidationFailed ("Y1 is inconsistent: hash of x1: " ++ hashRepr hash_x1
      ++ ", hash of y1: " ++ hashRepr hash_y1)), events)
  else if hash_a_xor_b ≠ hash_h3 then
    (.err (.shuffleValidationFailed ("C from H3 is inconsistent: hash of a_xor_b: "
      ++ hashRepr hash_a_xor_b ++ ", hash of C: " ++ hashRepr hash_h3)), events)
  else if hash_a_xor_b ≠ hash_h2 then
    (.err (.shuffleValidationFailed ("C from H2 is inconsistent: hash of a_xor_b: "
      ++ hashRepr hash_a_xor_b ++ ", hash of C: " ++ hashRepr hash_h2)), events)
  else (.ok (), events)

/-- Embedding of `h2_verify` (malicious.rs).  H2 computes the hash of
x2 and the hash of c (the right share of each shuffled row), sends the
latter to H1 on a one-record channel, receives one hash from H3, and
compares it against the hash of x2. -/
def h2_verify (env : Env) (sBits bBits : Nat) (keys : List Gf32Bit)
    (share_b_and_c : List AddShare) (x2 : List Nat) : OutW Unit :=
  let hash_x2 := compute_and_hash_tags sBits bBits keys x2
  let hash_c := compute_and_hash_tags sBits bBits keys (share_b_and_c.map Prod.snd)
  let hash_h3 := env.recvH3toH2 0
  let events : List NetEvent :=
    [.declare .hashH2toH1 1, .declare .hashH3toH2 1,
     .sendHash .hashH2toH1 0 hash_c, .recvHash .hashH3toH2 0]
  if hash_x2 ≠ hash_h3 then
    (.err (.shuffleValidationFailed ("X2 is inconsistent: hash of x2: " ++ hashRepr hash_x2
      ++ ", hash of y2: " ++ hashRepr hash_h3)), events)
  else (.ok (), events)

/-- Embedding of `h3_verify` (malicious.rs).  H3 computes the hashes of
y1, y2 and c (the left share of each shuffled row), sends the hashes of
y1 and c to H1 (record ids 0 and 1 on one channel) and the hash of y2
to H2, and performs no check of its own. -/
def h3_verify (env : Env) (sBits bBits : Nat) (keys : List Gf32Bit)
    (share_c_and_a : List AddShare) (y1 y2 : List Nat) : OutW Unit :=
  let hash_y1 := compute_and_hash_tags sBits bBits keys y1
  let hash_y2 := compute_and_hash_tags sBits bBits keys y2
  let hash_c := compute_and_hash_tags sBits bBits keys (share_c_and_a.map Prod.fst)
  (.ok (),
   [.declare .hashesH3toH1 2, .declare .hashH3toH2 1,
    .sendHash .hashesH3toH1 0 hash_y1, .sendHash .hashesH3toH1 1 hash_c,
    .sendHash .hashH3toH2 0 hash_y2])

/-- Embedding of `reveal_keys` (malicious.rs): open every key share via
the malicious reveal, in record-id order, and append `Gf32Bit::ONE` for
the tag column.  The reveal rounds are the returned events. -/
def reveal_keys (env : Env) (key_shares : List AddShare) : List Gf32Bit × List NetEvent :=
  ((List.range key_shares.length).map env.revealResult ++ [gfOne],
   (List.range key_shares.length).map NetEvent.reveal)

/-- Embedding of `verify_shuffle` (malicious.rs): reveal the MAC keys,
assert that the message variant matches the calling role (an assertion
failure is a panic), then dispatch to the role's verification
handler. -/
def verify_shuffle (env : Env) (sBits bBits : Nat) (key_shares : List AddShare)
    (shuffled_shares : List AddShare) (messages : Messages) : OutW Unit :=
  let rk := reveal_keys env key_shares
  let revealEvents := NetEvent.declare .revealMACKey key_shares.length :: rk.2
  if messages.role ≠ env.role then
    (.panic ("assertion failed: messages.role() == ctx.role()"), revealEvents)
  else
    match messages with
    | .H1 x1 => prependEvents revealEvents (h1_verify env sBits bBits rk.1 shuffled_shares x1)
    | .H2 x2 => prependEvents revealEvents (h2_verify env sBits bBits rk.1 shuffled_shares x2)
    | .H3 y1 y2 =>
        prependEvents revealEvents (h3_verify env sBits bBits rk.1 shuffled_shares y1 y2)

/-- The per-row MAC tag share: the sum of the secure-multiplication
results for the row (row index `i`, one multiplication per key). -/
def tagOfRow (env : Env) (row_length i : Nat) : AddShare :=
  ((List.range row_length).map (fun j => env.mulResult (i * row_length + j))).foldl
    (fun acc x => (gfAdd acc.1 x.1, gfAdd acc.2 x.2)) (gfZero, gfZero)

/-- Embedding of `compute_and_add_tags` (malicious.rs): an empty input
returns immediately; the debug assertion that the key vector is
nonempty is an abnormal termination; otherwise one secure
multiplication runs per (row, key) pair, at record id
`i * keys.length + j`, the per-row products are summed locally, and the
tag is concatenated to the row (an unwrap failure there is a panic). -/
def compute_and_add_tags (env : Env) (sBits bBits : Nat) (keys : List AddShare)
    (rows : List AddShare) : OutW (List AddShare) :=
  if rows.length = 0 then (.ok [], [])
  else if keys.length = 0 then (.panic ("assertion failed: row_length != 0"), [])
  else
    let row_length := keys.length
    let events : List NetEvent :=
      NetEvent.declare .generateTags (rows.length * row_length) ::
        (List.range rows.length).flatMap
          (fun i => (List.range row_length).map (fun j => NetEvent.mul (i * row_length + j)))
    match rows.enum.mapM (fun ir =>
        concatenate_row_and_tag sBits bBits ir.2 (tagOfRow env row_length ir.1)) with
    | some tagged => (.ok tagged, events)
    | none => (.panic ("called Option::unwrap() on a None value"), events)

/-- Number of MAC keys generated for a row width of `sBits` bits:
`ceil(sBits / 32)`. -/
def amountOfKeys (sBits : Nat) : Nat := (sBits + 31) / 32

/-- Key generation in the single-shard entry point: one PRSS-generated
share per key index. -/
def generateKeys (env : Env) (sBits : Nat) : List AddShare :=
  (List.range (amountOfKeys sBits)).map env.prss

/-- Embedding of `malicious_shuffle` (malicious.rs): assert the width
invariant, generate the MAC keys locally, tag the rows, run the
external semi-honest shuffle (an oracle of the environment), verify,
and truncate the tags. -/
def malicious_shuffle (env : Env) (sBits bBits : Nat) (shares : List AddShare) :
    OutW (List AddShare) :=
  if sBits + 32 ≠ bBits then
    (.panic ("assertion failed: S::BITS + 32 == B::BITS"), [])
  else
    let keys := generateKeys env sBits
    bindW (compute_and_add_tags env sBits bBits keys shares) (fun _ =>
      let shuffled := env.shuffleOut.1
      let messages := env.shuffleOut.2
      prependEvents env.shuffleEvents
        (bindW (verify_shuffle env sBits bBits keys shuffled messages) (fun _ =>
          (.ok (truncate_tags sBits bBits shuffled), []))))

/-- Embedding of `setup_keys` (malicious.rs): the first shard generates
the keys from shared randomness and sends key `i` with record id `i` to
every other shard; the other shards receive exactly `amount_of_keys`
values from shard 0 in record-id order and fail if the stream ends
early.  The total-record declaration to the channel layer is
`amount_of_keys` in both branches. -/
def setup_keys (env : Env) (amount_of_keys : Nat) : OutW (List AddShare) :=
  if env.shardId = 0 then
    let keys := (List.range amount_of_keys).map env.prss
    (.ok keys,
     NetEvent.declare .setupKeys amount_of_keys ::
       ((List.range env.shardCount).drop 1).flatMap (fun shard =>
         (List.range amount_of_keys).map (fun i =>
           NetEvent.sendKeyShare shard i (env.prss i))))
  else
    let events : List NetEvent :=
      NetEvent.declare .setupKeys amount_of_keys ::
        (List.range (min amount_of_keys env.shardKeyStream.length)).map
          (NetEvent.recvKeyShare 0)
    if env.shardKeyStream.length < amount_of_keys then (.err .channelClosed, events)
    else (.ok (env.shardKeyStream.take amount_of_keys), events)

/-- Embedding of `malicious_sharded_shuffle` (malicious.rs): assert the
width invariant, obtain the MAC keys via `setup_keys`, tag the rows,
run the role-dispatched external sharded shuffle (an oracle of the
environment), verify, and truncate the tags. -/
def malicious_sharded_shuffle (env : Env) (sBits bBits : Nat) (shares : List AddShare) :
    OutW (List AddShare) :=
  if sBits + 32 ≠ bBits then
    (.panic ("assertion failed: S::BITS + 32 == B::BITS"), [])
  else
    bindW (setup_keys env (amountOfKeys sBits)) (fun keys =>
      bindW (compute_and_add_tags env sBits bBits keys shares) (fun _ =>
        let shuffled := env.shuffleOut.1
        let messages := env.shuffleOut.2
        prependEvents env.shuffleEvents
          (bindW (verify_shuffle env sBits bBits keys shuffled messages) (fun _ =>
            (.ok (truncate_tags sBits bBits shuffled), [])))))

/-- A concrete environment used to evaluate the theorems on explicit
inputs: every oracle returns a zero value, every received hash is the
digest of the empty sequence, and the external shuffle returns an empty
output for role H1. -/
def envTrivial : Env :=
  { role := .H1
    prss := fun _ => (0, 0)
    mulResult := fun _ => (0, 0)
    revealResult := fun _ => 0
    recvH3toH1 := fun _ => []
    recvH2toH1 := fun _ => []
    recvH3toH2 := fun _ => []
    shuffleOut := ([], .H1 [])
    shuffleEvents := []
    shardId := 0
    shardCount := 1
    shardKeyStream := [] }

/-- Claim C1: H1 verification computes the hash of x1 and of the xor of
its two shares of each shuffled row, receives the hashes of y1 and of c
as record ids 0 and 1 on the single H3-to-H1 channel and the hash of c
from H2 on a separate channel, returns Ok exactly when all three hash
equalities hold, and on a mismatch returns ShuffleValidationFailed
naming the failing comparison, checking y1 first, then c from H3, then
c from H2. -/
theorem c1_h1_verify_spec (env : Env) (sBits bBits : Nat) (keys : List Gf32Bit)
    (shares : List AddShare) (x1 : List Nat) :
    ((h1_verify env sBits bBits keys shares x1).1 = .ok () ↔
      (compute_and_hash_tags sBits bBits keys x1 = env.recvH3toH1 0 ∧
       compute_and_hash_tags sBits bBits keys (shares.map (fun s => s.1 ^^^ s.2)) =
         env.recvH3toH1 1 ∧
       compute_and_hash_tags sBits bBits keys (shares.map (fun s => s.1 ^^^ s.2)) =
         env.recvH2toH1 0))
    ∧ (compute_and_hash_tags sBits bBits keys x1 ≠ env.recvH3toH1 0 →
        (h1_verify env sBits bBits keys shares x1).1 =
          .err (.shuffleValidationFailed ("Y1 is inconsistent: hash of x1: "
            ++ hashRepr (compute_and_hash_tags sBits bBits keys x1)
            ++ ", hash of y1: " ++ hashRepr (env.recvH3toH1 0))))
    ∧ (compute_and_hash_tags sBits bBits keys x1 = env.recvH3toH1 0 →
       compute_and_hash_tags sBits bBits keys (shares.map (fun s => s.1 ^^^ s.2)) ≠
         env.recvH3toH1 1 →
        (h1_verify env sBits bBits keys shares x1).1 =
          .err (.shuffleValidationFailed ("C from H3 is inconsistent: hash of a_xor_b: "
            ++ hashRepr (compute_and_hash_tags sBits bBits keys
                  (shares.map (fun s => s.1 ^^^ s.2)))
            ++ ", hash of C: " ++ hashRepr (env.recvH3toH1 1))))
    ∧ (compute_and_hash_tags sBits bBits keys x1 = env.recvH3toH1 0 →
       compute_and_hash_tags sBits bBits keys (shares.map (fun s => s.1 ^^^ s.2)) =
         env.recvH3toH1 1 →
       compute_and_hash_tags sBits bBits keys (shares.map (fun s => s.1 ^^^ s.2)) ≠
         env.recvH2toH1 0 →
        (h1_verify env sBits bBits keys shares x1).1 =
          .err (.shuffleValidationFailed ("C from H2 is inconsistent: hash of a_xor_b: "
            ++ hashRepr (compute_and_hash_tags sBits bBits keys
                  (shares.map (fun s => s.1 ^^^ s.2)))
            ++ ", hash of C: " ++ hashRepr (env.recvH2toH1 0))))
    ∧ (h1_verify env sBits bBits keys shares x1).2 =
        [.declare .hashesH3toH1 2, .declare .hashH2toH1 1,
         .recvHash .hashesH3toH1 0, .recvHash .hashesH3toH1 1, .recvHash .hashH2toH1 0] := by
  by_cases h1 : compute_and_hash_tags sBits bBits keys x1 = env.recvH3toH1 0 <;>
  by_cases h2 : compute_and_hash_tags sBits bBits keys (shares.map (fun s => s.1 ^^^ s.2)) =
    env.recvH3toH1 1 <;>
  by_cases h3 : compute_and_hash_tags sBits bBits keys (shares.map (fun s => s.1 ^^^ s.2)) =
    env.recvH2toH1 0 <;>
  simp_all [h1_verify]

theorem c1_h1_verify_spec_witness :
    (h1_verify envTrivial 32 64 [] [] []).1 = .ok () :=
  (c1_h1_verify_spec envTrivial 32 64 [] [] []).1.mpr ⟨rfl, rfl, rfl⟩

/-- Claim C2: H2 verification computes the hash of x2 and the hash of c
over the right share of each shuffled row, sends the hash of c to H1 on
a one-record channel, receives exactly one hash from H3, and returns Ok
exactly when the hash of x2 equals the received hash, otherwise a
ShuffleValidationFailed message naming X2; composed with the H3
handler, the value received is the hash of y2, so the comparison is
semantically hash(x2) against hash(y2). -/
theorem c2_h2_verify_spec (env : Env) (sBits bBits : Nat) (keys : List Gf32Bit)
    (shares : List AddShare) (x2 : List Nat) :
    ((h2_verify env sBits bBits keys shares x2).1 = .ok () ↔
      compute_and_hash_tags sBits bBits keys x2 = env.recvH3toH2 0)
    ∧ (compute_and_hash_tags sBits bBits keys x2 ≠ env.recvH3toH2 0 →
        (h2_verify env sBits bBits keys shares x2).1 =
          .err (.shuffleValidationFailed ("X2 is inconsistent: hash of x2: "
            ++ hashRepr (compute_and_hash_tags sBits bBits keys x2)
            ++ ", hash of y2: " ++ hashRepr (env.recvH3toH2 0))))
    ∧ (h2_verify env sBits bBits keys shares x2).2 =
        [.declare .hashH2toH1 1, .declare .hashH3toH2 1,
         .sendHash .hashH2toH1 0
           (compute_and_hash_tags sBits bBits keys (shares.map Prod.snd)),
         .recvHash .hashH3toH2 0]
    ∧ (∀ cShares y1 y2,
        NetEvent.sendHash .hashH3toH2 0 (env.recvH3toH2 0) ∈
          (h3_verify env sBits bBits keys cShares y1 y2).2 →
        ((h2_verify env sBits bBits keys shares x2).1 = .ok () ↔
          compute_and_hash_tags sBits bBits keys x2 =
            compute_and_hash_tags sBits bBits keys y2)) := by
  refine ⟨?_, ?_, ?_, ?_⟩
  · by_cases h : compute_and_hash_tags sBits bBits keys x2 = env.recvH3toH2 0 <;>
      simp [h2_verify, h]
  · intro h; simp [h2_verify, h]
  · simp only [h2_verify]
    split <;> rfl
  · intro cShares y1 y2 hmem
    have hv : env.recvH3toH2 0 = compute_and_hash_tags sBits bBits keys y2 := by
      simpa [h3_verify] using hmem
    by_cases h : compute_and_hash_tags sBits bBits keys x2 = env.recvH3toH2 0 <;>
      simp [h2_verify, h, ← hv]

theorem c2_h2_verify_spec_witness :
    (h2_verify envTrivial 32 64 [] [] []).1 = .ok () :=
  (c2_h2_verify_spec envTrivial 32 64 [] [] []).1.mpr rfl

/-- Claim C4: both entry points check the width invariant
`width(S) + 32 == width(B)` as their very first step; when it fails the
call terminates abnormally (assertion panic) with an empty network
trace, before generating keys, tagging, or performing any protocol
round. -/
theorem c4_width_invariant_first (env : Env) (sBits bBits : Nat) (shares : List AddShare)
    (h : sBits + 32 ≠ bBits) :
    malicious_shuffle env sBits bBits shares =
      (.panic ("assertion failed: S::BITS + 32 == B::BITS"), [])
    ∧ malicious_sharded_shuffle env sBits bBits shares =
      (.panic ("assertion failed: S::BITS + 32 == B::BITS"), []) := by
  constructor <;> simp [malicious_shuffle, malicious_sharded_shuffle, h]

theorem c4_width_invariant_first_witness :
    malicious_shuffle envTrivial 32 65 [] =
      (.panic ("assertion failed: S::BITS + 32 == B::BITS"), [])
    ∧ malicious_sharded_shuffle envTrivial 32 65 [] =
      (.panic ("assertion failed: S::BITS + 32 == B::BITS"), []) :=
  c4_width_invariant_first envTrivial 32 65 [] (by decide)

/-- Claim C5: for every non-empty row sequence, `compute_and_add_tags`
with an empty key vector terminates abnormally (assertion panic, not a
recoverable error value), before any network event. -/
theorem c5_empty_keys_panic (env : Env) (sBits bBits : Nat) (rows : List AddShare)
    (h : rows ≠ []) :
    compute_and_add_tags env sBits bBits [] rows =
      (.panic ("assertion failed: row_length != 0"), []) := by
  have hl : ¬rows.length = 0 := by simpa [List.length_eq_zero] using h
  simp [compute_and_add_tags, hl]

theorem c5_empty_keys_panic_witness :
    compute_and_add_tags envTrivial 32 64 [] [(0, 0)] =
      (.panic ("assertion failed: row_length != 0"), []) :=
  c5_empty_keys_panic envTrivial 32 64 [(0, 0)] (by simp)

/-- Claim C8: `reveal_keys` returns the opened plaintext value of every
key share in record-id order with the constant one appended, so its
length is the number of key shares plus one; in `malicious_shuffle` the
number of generated key shares is `ceil(sBits / 32)`, making the
revealed vector length `ceil(sBits / 32) + 1`. -/
theorem c8_reveal_keys_spec (env : Env) (key_shares : List AddShare) (sBits : Nat) :
    reveal_keys env key_shares =
      ((List.range key_shares.length).map env.revealResult ++ [gfOne],
       (List.range key_shares.length).map NetEvent.reveal)
    ∧ (reveal_keys env key_shares).1.length = key_shares.length + 1
    ∧ (generateKeys env sBits).length = (sBits + 31) / 32
    ∧ (reveal_keys env (generateKeys env sBits)).1.length = (sBits + 31) / 32 + 1 := by
  refine ⟨rfl, ?_, ?_, ?_⟩ <;> simp [reveal_keys, generateKeys, amountOfKeys]

/-- Claim C10: `verify_shuffle` requires the role carried by the message
variant to equal the context role: on a mismatch it terminates
abnormally (assertion panic) right after the key reveal, with no hash
sent, received or compared; when they match, the handler dispatched is
the one for the calling role. -/
theorem c10_verify_shuffle_role_assert (env : Env) (sBits bBits : Nat)
    (key_shares shuffled : List AddShare) (messages : Messages) :
    (messages.role ≠ env.role →
      verify_shuffle env sBits bBits key_shares shuffled messages =
        (.panic ("assertion failed: messages.role() == ctx.role()"),
         NetEvent.declare .revealMACKey key_shares.length ::
           (List.range key_shares.length).map NetEvent.reveal))
    ∧ (messages.role ≠ env.role → ∀ ch rec v,
        NetEvent.sendHash ch rec v ∉
          (verify_shuffle env sBits bBits key_shares shuffled messages).2 ∧
        NetEvent.recvHash ch rec ∉
          (verify_shuffle env sBits bBits key_shares shuffled messages).2)
    ∧ (∀ x1, Messages.role (.H1 x1) = env.role →
        verify_shuffle env sBits bBits key_shares shuffled (.H1 x1) =
          prependEvents (NetEvent.declare .revealMACKey key_shares.length ::
              (List.range key_shares.length).map NetEvent.reveal)
            (h1_verify env sBits bBits
              ((List.range key_shares.length).map env.revealResult ++ [gfOne]) shuffled x1))
    ∧ (∀ x2, Messages.role (.H2 x2) = env.role →
        verify_shuffle env sBits bBits key_shares shuffled (.H2 x2) =
          prependEvents (NetEvent.declare .revealMACKey key_shares.length ::
              (List.range key_shares.length).map NetEvent.reveal)
            (h2_verify env sBits bBits
              ((List.range key_shares.length).map env.revealResult ++ [gfOne]) shuffled x2))
    ∧ (∀ y1 y2, Messages.role (.H3 y1 y2) = env.role →
        verify_shuffle env sBits bBits key_shares shuffled (.H3 y1 y2) =
          prependEvents (NetEvent.declare .revealMACKey key_shares.length ::
              (List.range key_shares.length).map NetEvent.reveal)
            (h3_verify env sBits bBits
              ((List.range key_shares.length).map env.revealResult ++ [gfOne]) shuffled
              y1 y2)) := by
  refine ⟨?_, ?_, ?_, ?_, ?_⟩
  · intro h
    simp [verify_shuffle, reveal_keys, h]
  · intro h ch rec v
    simp [verify_shuffle, reveal_keys, h]
  · intro x1 h
    simp [verify_shuffle, reveal_keys, h.symm, Messages.role]
  · intro x2 h
    simp [verify_shuffle, reveal_keys, h.symm, Messages.role]
  · intro y1 y2 h
    simp [verify_shuffle, reveal_keys, h.symm, Messages.role]

theorem c10_verify_shuffle_role_assert_witness :
    verify_shuffle envTrivial 32 64 [] [] (.H2 []) =
      (.panic ("assertion failed: messages.role() == ctx.role()"),
       [NetEvent.declare .revealMACKey 0]) :=
  (c10_verify_shuffle_role_assert envTrivial 32 64 [] [] (.H2 [])).1 (by decide)

theorem split_row_and_tag_char (sBits rwt : Nat) :
    split_row_and_tag sBits (sBits + 32) rwt =
      ((if rwt % 256 ^ byteWidth sBits < 2 ^ sBits then rwt % 256 ^ byteWidth sBits else 0),
       rwt / 256 ^ byteWidth sBits % 2 ^ 32) := by
  have hbw : byteWidth (sBits + 32) = byteWidth sBits + 4 := by unfold byteWidth; omega
  have h256 : (256 : Nat) ^ 4 = 2 ^ 32 := by norm_num
  simp only [split_row_and_tag, hbw,
    natToBytesLE_take (byteWidth sBits + 4) (byteWidth sBits) rwt (by omega),
    natToBytesLE_drop (byteWidth sBits) (byteWidth sBits + 4) rwt,
    Nat.add_sub_cancel_left, deserializeBA, bytesToNatLE_natToBytesLE, h256]
  have htag : rwt / 256 ^ byteWidth sBits % 2 ^ 32 < 2 ^ 32 :=
    Nat.mod_lt _ (by positivity)
  rw [if_pos htag]
  split_ifs with hrow <;> simp

/-- Claim C6: `split_row_and_tag` is total on well-sized inputs: the
first `ceil(sBits/8)` bytes are parsed as the row and the remaining 4
bytes as the tag, and a failed deserialization of either part is
replaced by its default (zero) value; no error is ever signalled. -/
theorem c6_split_row_and_tag_total (sBits bBits rwt : Nat) (h : bBits = sBits + 32) :
    split_row_and_tag sBits bBits rwt =
      ((if rwt % 256 ^ byteWidth sBits < 2 ^ sBits then rwt % 256 ^ byteWidth sBits else 0),
       rwt / 256 ^ byteWidth sBits % 2 ^ 32) := by
  subst h
  exact split_row_and_tag_char sBits rwt

theorem c6_split_row_and_tag_total_witness :
    split_row_and_tag 20 52 (2 ^ 23) =
      ((if 2 ^ 23 % 256 ^ byteWidth 20 < 2 ^ 20 then 2 ^ 23 % 256 ^ byteWidth 20 else 0),
       2 ^ 23 / 256 ^ byteWidth 20 % 2 ^ 32)
    ∧ split_row_and_tag 20 52 (2 ^ 23) = (0, 0) :=
  ⟨c6_split_row_and_tag_total 20 52 (2 ^ 23) rfl, by decide⟩

theorem concat_bytes_value (sBits r t : Nat) (hr : r < 2 ^ sBits) (ht : t < 2 ^ 32) :
    bytesToNatLE (natToBytesLE r (byteWidth sBits) ++ natToBytesLE t 4) =
      r + 256 ^ byteWidth sBits * t := by
  rw [bytesToNatLE_append, natToBytesLE_length, bytesToNatLE_natToBytesLE,
    bytesToNatLE_natToBytesLE,
    Nat.mod_eq_of_lt (lt_of_lt_of_le hr (two_pow_le_pow256_byteWidth sBits)),
    Nat.mod_eq_of_lt (by rw [show (256 : Nat) ^ 4 = 2 ^ 32 by norm_num]; exact ht)]

theorem split_concat_value (sBits r t : Nat) (hr : r < 2 ^ sBits) (ht : t < 2 ^ 32) :
    split_row_and_tag sBits (sBits + 32) (r + 256 ^ byteWidth sBits * t) = (r, t) := by
  have hrb : r < 256 ^ byteWidth sBits :=
    lt_of_lt_of_le hr (two_pow_le_pow256_byteWidth sBits)
  have h1 : (r + 256 ^ byteWidth sBits * t) % 256 ^ byteWidth sBits = r := by
    rw [Nat.add_mul_mod_self_left, Nat.mod_eq_of_lt hrb]
  have h2 : (r + 256 ^ byteWidth sBits * t) / 256 ^ byteWidth sBits = t := by
    rw [Nat.add_mul_div_left _ _ (by positivity), Nat.div_eq_of_lt hrb, Nat.zero_add]
  rw [split_row_and_tag_char, h1, h2, if_pos hr, Nat.mod_eq_of_lt ht]

theorem pow256_byteWidth_aligned (sBits : Nat) (h8 : sBits % 8 = 0) :
    (256 : Nat) ^ byteWidth sBits = 2 ^ sBits := by
  rw [pow256_eq_pow2]
  congr 1
  unfold byteWidth
  omega

theorem deserialize_concat_some (sBits : Nat) (h8 : sBits % 8 = 0) (r t : Nat)
    (hr : r < 2 ^ sBits) (ht : t < 2 ^ 32) :
    deserializeBA (sBits + 32) (natToBytesLE r (byteWidth sBits) ++ natToBytesLE t 4) =
      some (r + 256 ^ byteWidth sBits * t) := by
  simp only [deserializeBA, concat_bytes_value sBits r t hr ht]
  rw [if_pos]
  rw [pow256_byteWidth_aligned sBits h8]
  calc r + 2 ^ sBits * t < 2 ^ sBits + 2 ^ sBits * t := Nat.add_lt_add_right hr _
    _ = 2 ^ sBits * (t + 1) := by ring
    _ ≤ 2 ^ sBits * 2 ^ 32 := Nat.mul_le_mul_left _ ht
    _ = 2 ^ (sBits + 32) := by rw [pow_add]

theorem concatenate_row_and_tag_some (sBits : Nat) (h8 : sBits % 8 = 0) (row tag : AddShare)
    (hr1 : row.1 < 2 ^ sBits) (hr2 : row.2 < 2 ^ sBits)
    (ht1 : tag.1 < 2 ^ 32) (ht2 : tag.2 < 2 ^ 32) :
    concatenate_row_and_tag sBits (sBits + 32) row tag =
      some (row.1 + 256 ^ byteWidth sBits * tag.1,
            row.2 + 256 ^ byteWidth sBits * tag.2) := by
  have hguard : ¬(byteWidth sBits + 4 ≠ byteWidth (sBits + 32)) := by
    unfold byteWidth; omega
  rw [concatenate_row_and_tag, if_neg hguard,
    deserialize_concat_some sBits h8 row.1 tag.1 hr1 ht1,
    deserialize_concat_some sBits h8 row.2 tag.2 hr2 ht2]

/-- Claim C7: concatenation and splitting are inverse: for every pair
of row shares below `2 ^ sBits` and tag shares below `2 ^ 32`, with
`bBits = sBits + 32` (all such boolean-array pairs in the repository
have byte-aligned `sBits`), splitting each share of the concatenation
returns exactly the original row and tag, and `truncate_tags` maps
every element of a sequence of concatenated tagged rows back to its
original untagged row share. -/
theorem c7_concat_split_inverse (sBits bBits : Nat) (h8 : sBits % 8 = 0)
    (hb : bBits = sBits + 32) :
    (∀ rl rr tl tr : Nat, rl < 2 ^ sBits → rr < 2 ^ sBits → tl < 2 ^ 32 → tr < 2 ^ 32 →
      ∃ b : AddShare, concatenate_row_and_tag sBits bBits (rl, rr) (tl, tr) = some b ∧
        split_row_and_tag sBits bBits b.1 = (rl, tl) ∧
        split_row_and_tag sBits bBits b.2 = (rr, tr))
    ∧ (∀ rows : List (AddShare × AddShare),
        (∀ p ∈ rows, p.1.1 < 2 ^ sBits ∧ p.1.2 < 2 ^ sBits ∧
          p.2.1 < 2 ^ 32 ∧ p.2.2 < 2 ^ 32) →
        ∀ tagged : List AddShare,
          rows.mapM (fun p => concatenate_row_and_tag sBits bBits p.1 p.2) = some tagged →
          truncate_tags sBits bBits tagged = rows.map Prod.fst) := by
  subst hb
  constructor
  · intro rl rr tl tr hrl hrr htl htr
    refine ⟨(rl + 256 ^ byteWidth sBits * tl, rr + 256 ^ byteWidth sBits * tr), ?_, ?_, ?_⟩
    · exact concatenate_row_and_tag_some sBits h8 (rl, rr) (tl, tr) hrl hrr htl htr
    · exact split_concat_value sBits rl tl hrl htl
    · exact split_concat_value sBits rr tr hrr htr
  · intro rows
    induction rows with
    | nil =>
        intro _ tagged hmap
        simp only [List.mapM_nil, pure, Option.some.injEq] at hmap
        subst hmap
        rfl
    | cons p ps ih =>
        intro hbounds tagged hmap
        obtain ⟨hp1, hp2, hp3, hp4⟩ := hbounds p (List.mem_cons_self p ps)
        rw [List.mapM_cons,
          concatenate_row_and_tag_some sBits h8 p.1 p.2 hp1 hp2 hp3 hp4] at hmap
        cases hps : ps.mapM (fun p => concatenate_row_and_tag sBits (sBits + 32) p.1 p.2) with
        | none =>
            rw [hps] at hmap
            simp at hmap
        | some bs =>
            rw [hps] at hmap
            simp at hmap
            subst hmap
            have hv1 : (split_row_and_tag sBits (sBits + 32)
                (p.1.1 + 256 ^ byteWidth sBits * p.2.1)).1 = p.1.1 := by
              rw [split_concat_value sBits p.1.1 p.2.1 hp1 hp3]
            have hv2 : (split_row_and_tag sBits (sBits + 32)
                (p.1.2 + 256 ^ byteWidth sBits * p.2.2)).1 = p.1.2 := by
              rw [split_concat_value sBits p.1.2 p.2.2 hp2 hp4]
            have hbs : truncate_tags sBits (sBits + 32) bs = ps.map Prod.fst :=
              ih (fun q hq => hbounds q (List.mem_cons_of_mem p hq)) bs hps
            simp only [truncate_tags, List.map_cons] at hbs ⊢
            exact List.cons_eq_cons.mpr ⟨Prod.ext hv1 hv2, hbs⟩

theorem c7_concat_split_inverse_witness :
    ∃ b : AddShare, concatenate_row_and_tag 32 64 (5, 7) (9, 11) = some b ∧
      split_row_and_tag 32 64 b.1 = (5, 9) ∧ split_row_and_tag 32 64 b.2 = (7, 11) :=
  (c7_concat_split_inverse 32 64 (by decide) rfl).1 5 7 9 11
    (by decide) (by decide) (by decide) (by decide)

/-- Claim C9: `setup_keys` on shard 0 generates `n` key shares from
shared randomness and sends key `i` with record id `i` to every other
shard; on any other shard it returns exactly the first `n` values
received from shard 0 in record-id order and fails when the channel
closes early; the total record count declared to the channel layer is
`n` in both branches. -/
theorem c9_setup_keys_spec (env : Env) (n : Nat) :
    (env.shardId = 0 →
      setup_keys env n =
        (.ok ((List.range n).map env.prss),
         NetEvent.declare .setupKeys n ::
           ((List.range env.shardCount).drop 1).flatMap (fun shard =>
             (List.range n).map (fun i => NetEvent.sendKeyShare shard i (env.prss i)))))
    ∧ (env.shardId ≠ 0 → n ≤ env.shardKeyStream.length →
        (setup_keys env n).1 = .ok (env.shardKeyStream.take n))
    ∧ (env.shardId ≠ 0 → env.shardKeyStream.length < n →
        (setup_keys env n).1 = .err .channelClosed)
    ∧ (setup_keys env n).2.head? = some (.declare .setupKeys n) := by
  refine ⟨?_, ?_, ?_, ?_⟩
  · intro h
    simp [setup_keys, h]
  · intro h hle
    have hnlt : ¬env.shardKeyStream.length < n := by omega
    simp [setup_keys, h, hnlt]
  · intro h hlt
    simp [setup_keys, h, hlt]
  · by_cases h : env.shardId = 0
    · simp [setup_keys, h]
    · by_cases h2 : env.shardKeyStream.length < n <;> simp [setup_keys, h, h2]

theorem c9_setup_keys_spec_witness :
    setup_keys envTrivial 2 = (.ok [(0, 0), (0, 0)], [NetEvent.declare .setupKeys 2])
    ∧ (setup_keys ({ envTrivial with shardId := 1 }) 1).1 = .err .channelClosed := by
  constructor
  · exact ((c9_setup_keys_spec envTrivial 2).1 rfl).trans (by decide)
  · exact (c9_setup_keys_spec ({ envTrivial with shardId := 1 }) 1).2.2.1
      (by decide) (by decide)

/-- The message bundle a role observes when the shuffle output is
empty: the variant matching the role, with empty payload vectors. -/
def emptyMessagesFor : Role → Messages
  | .H1 => .H1 []
  | .H2 => .H2 []
  | .H3 => .H3 [] []

/-- Claim C3 counterexample: on the empty input, with every external
oracle silent and every delivered hash equal to the digest of the empty
sequence, `malicious_shuffle` does return Ok of the empty sequence, but
its network trace is not empty: it still reveals the MAC keys and
receives the verification hashes before returning. -/
theorem c3_empty_input_counterexample :
    (malicious_shuffle envTrivial 32 64 []).1 = .ok []
    ∧ (malicious_shuffle envTrivial 32 64 []).2 ≠ []
    ∧ NetEvent.reveal 0 ∈ (malicious_shuffle envTrivial 32 64 []).2 := by
  decide

/-- Claim C3, amended: on the empty input (honest delivery, external
shuffle silent), `malicious_shuffle` returns Ok of the empty sequence
and performs no secure multiplication, but it does perform network
rounds: the MAC-key reveal and the verification hash exchange still
run. -/
theorem c3_empty_input_amended (env : Env) (sBits bBits : Nat)
    (hw : sBits + 32 = bBits) (hs : 0 < sBits)
    (hout : env.shuffleOut = ([], emptyMessagesFor env.role))
    (hse : env.shuffleEvents = [])
    (hr1 : env.recvH3toH1 0 = []) (hr2 : env.recvH3toH1 1 = [])
    (hr3 : env.recvH2toH1 0 = []) (hr4 : env.recvH3toH2 0 = []) :
    (malicious_shuffle env sBits bBits []).1 = .ok []
    ∧ (∀ r, NetEvent.mul r ∉ (malicious_shuffle env sBits bBits []).2)
    ∧ NetEvent.reveal 0 ∈ (malicious_shuffle env sBits bBits []).2 := by
  have hw' : ¬sBits + 32 ≠ bBits := by omega
  have hk : 0 < amountOfKeys sBits := by unfold amountOfKeys; omega
  have hg : 0 < (generateKeys env sBits).length := by
    simp only [generateKeys, List.length_map, List.length_range]
    exact hk
  cases henv : env.role with
  | H1 =>
      simp [malicious_shuffle, hw', compute_and_add_tags, bindW, hout, henv,
        emptyMessagesFor, verify_shuffle, reveal_keys, Messages.role, prependEvents,
        h1_verify, compute_and_hash_tags, compute_possibly_empty_hash, hr1, hr2, hr3,
        hse, truncate_tags, hk, hg]
  | H2 =>
      simp [malicious_shuffle, hw', compute_and_add_tags, bindW, hout, henv,
        emptyMessagesFor, verify_shuffle, reveal_keys, Messages.role, prependEvents,
        h2_verify, compute_and_hash_tags, compute_possibly_empty_hash, hr4,
        hse, truncate_tags, hk, hg]
  | H3 =>
      simp [malicious_shuffle, hw', compute_and_add_tags, bindW, hout, henv,
        emptyMessagesFor, verify_shuffle, reveal_keys, Messages.role, prependEvents,
        h3_verify, compute_and_hash_tags, compute_possibly_empty_hash,
        hse, truncate_tags, hk, hg]

theorem c3_empty_input_amended_witness :
    (malicious_shuffle envTrivial 32 64 []).1 = .ok []
    ∧ (∀ r, NetEvent.mul r ∉ (malicious_shuffle envTrivial 32 64 []).2)
    ∧ NetEvent.reveal 0 ∈ (malicious_shuffle envTrivial 32 64 []).2 :=
  c3_empty_input_amended envTrivial 32 64 rfl (by decide) rfl rfl rfl rfl rfl rfl
